import Mathlib

/-!
Verification development for the Speak-web client (frontend chat application).

The definitions below are a shallow embedding of:
* the conversation data model (`frontend/src/types`),
* the chat state store / reducer (`frontend/src/context/ChatContext`),
* the SSE stream-consumer hook (`frontend/src/hooks/useSSE`): its inline
  event handlers, the incremental SSE line decoder, and the
  reconnection/backoff logic of `executeRequest`,
* the `MessageInput` component's `handleSend` input validation.

JavaScript strings are embedded as `String` (or `List Char` for the byte/line
decoder, where line splitting must be reasoned about).  The id supply
`msg_${Date.now()}_${random}` of `generateMessageId` and the `Date.now()`
timestamp are modelled by one monotone fresh counter `nextId`: each generated
id is fresh and ids are totally ordered by creation time.
-/

namespace SpeakWeb

/-- Type `Correction` from `frontend/src/types`. -/
structure Correction where
  original : String
  corrected : String
  issues : List String
  explanation : String
deriving DecidableEq, Repr

/-- Type `MessageRole` from `frontend/src/types`: `'user' | 'assistant'`. -/
inductive Role
  | user
  | assistant
deriving DecidableEq, Repr

/-- Type `Message` from `frontend/src/types`. -/
structure Message where
  id : Nat
  role : Role
  content : String
  timestamp : Nat
  correction : Option Correction
deriving DecidableEq, Repr

/-- Type `LoadingState` from `frontend/src/types`. -/
structure LoadingState where
  chat : Bool
  correction : Bool
  summary : Bool
deriving DecidableEq, Repr

/-- The keys of `LoadingState` (`keyof LoadingState`). -/
inductive LoadingKey
  | chat
  | correction
  | summary
deriving DecidableEq, Repr

/-- Update `{...loading, [key]: value}`: — update one field of a `LoadingState`. -/
def LoadingState.set (l : LoadingState) (k : LoadingKey) (v : Bool) : LoadingState :=
  match k with
  | .chat => { l with chat := v }
  | .correction => { l with correction := v }
  | .summary => { l with summary := v }

/-- Type `ChatState` from `frontend/src/types`. -/
structure ChatState where
  messages : List Message
  threadId : Option String
  loading : LoadingState
  error : Option String
deriving DecidableEq, Repr

/-- Constant `initialState` from `ChatContext`. -/
def initialState : ChatState :=
  { messages := []
    threadId := none
    loading := { chat := false, correction := false, summary := false }
    error := none }

/-- Type `ChatAction` from `ChatContext`. -/
inductive ChatAction
  | addMessage (payload : Message)
  | updateMessageContent (messageId : Nat) (content : String)
  | attachCorrection (messageId : Nat) (correction : Correction)
  | setThreadId (threadId : String)
  | clearThread
  | setLoading (key : LoadingKey) (value : Bool)
  | setError (error : Option String)
  | loadHistory (messages : List Message)
deriving DecidableEq, Repr

/-- Function `chatReducer` from `ChatContext`, clause for clause. -/
def chatReducer (state : ChatState) (action : ChatAction) : ChatState :=
  match action with
  | .addMessage payload =>
      { state with messages := state.messages ++ [payload] }
  | .updateMessageContent messageId content =>
      { state with
        messages := state.messages.map fun msg =>
          if msg.id = messageId then { msg with content := content } else msg }
  | .attachCorrection messageId correction =>
      { state with
        messages := state.messages.map fun msg =>
          if msg.id = messageId then { msg with correction := some correction } else msg }
  | .setThreadId threadId =>
      { state with threadId := some threadId }
  | .clearThread =>
      initialState
  | .setLoading key value =>
      { state with loading := state.loading.set key value }
  | .setError error =>
      { state with error := error }
  | .loadHistory messages =>
      { state with messages := messages }

/-! ## The SSE hook (`frontend/src/hooks/useSSE`)

The hook's mutable refs and the `ChatState` it drives are collected in one
record `HookState`.  `EventSource`/timeout handles are abstracted to the
`isConnected` flag that `cleanup` / the fetch handler maintain. -/

/-- Type `ErrorEventData` from `frontend/src/types` (`node`, `message` are strings;
`onError` additionally guards against the JS-falsy empty string with
`data.message || ...` and `data.node || 'unknown'`). -/
structure ErrorEventData where
  node : String
  message : String
deriving DecidableEq, Repr

/-- A parsed SSE event, as consumed by the `switch` of `executeRequest`. -/
inductive SSEEvent
  | threadIdEvt (threadId : String)
  | chatResponse (content : String)
  | correctionEvt (correction : Correction)
  | errorEvt (data : ErrorEventData)
  | complete
deriving DecidableEq, Repr

/-- The state of one `useSSE` hook instance: the chat store it dispatches to,
plus its refs (`currentMessageIdRef`, `lastUserMessageIdRef`,
`isCompleteHandledRef`, `reconnectAttemptsRef`, connection handles) and the
fresh-id supply of `generateMessageId`. -/
structure HookState where
  chat : ChatState
  currentMessageId : Option Nat
  lastUserMessageId : Option Nat
  isCompleteHandled : Bool
  reconnectCtr : Nat
  isConnected : Bool
  nextId : Nat
deriving DecidableEq, Repr

/-- The hook state when the component mounts: fresh refs over `initialState`. -/
def initialHook : HookState :=
  { chat := initialState
    currentMessageId := none
    lastUserMessageId := none
    isCompleteHandled := false
    reconnectCtr := 0
    isConnected := false
    nextId := 0 }

/-- Action `addMessage` of `ChatContext`: generate a fresh id and timestamp, dispatch
`ADD_MESSAGE`, and return the id. -/
def hookAddMessage (s : HookState) (role : Role) (content : String) : HookState × Nat :=
  let id := s.nextId
  let fullMessage : Message :=
    { id := id, role := role, content := content, timestamp := s.nextId, correction := none }
  ({ s with
      chat := chatReducer s.chat (.addMessage fullMessage)
      nextId := s.nextId + 1 },
   id)

/-- Dispatch one `ChatAction` from the hook (context action wrappers
`updateMessageContent`, `attachCorrection`, `setThreadId`, `setLoading`,
`setError` all just dispatch). -/
def hookDispatch (s : HookState) (a : ChatAction) : HookState :=
  { s with chat := chatReducer s.chat a }

/-- Function `cleanup`: close the EventSource, clear the pending timeout, drop the
connected flag. -/
def cleanup (s : HookState) : HookState :=
  { s with isConnected := false }

/-- The unguarded body of `onComplete`: clear both loading flags, reset the
assistant-message ref, reset the retry counter (ref and state), `cleanup`. -/
def onCompleteEffects (s : HookState) : HookState :=
  let s := { s with isCompleteHandled := true }
  let s := hookDispatch s (.setLoading .chat false)
  let s := hookDispatch s (.setLoading .correction false)
  let s := { s with currentMessageId := none, reconnectCtr := 0 }
  cleanup s

/-- Handler `onComplete` inside `executeRequest`: a no-op once
`isCompleteHandledRef.current` is set. -/
def onComplete (s : HookState) : HookState :=
  if s.isCompleteHandled then s else onCompleteEffects s

/-- Handler `onThreadId`. -/
def onThreadId (s : HookState) (threadId : String) : HookState :=
  hookDispatch s (.setThreadId threadId)

/-- Handler `onChatResponse`: create the pending assistant message on first delivery,
thereafter update it in place; clear the chat loading flag. -/
def onChatResponse (s : HookState) (content : String) : HookState :=
  let s :=
    match s.currentMessageId with
    | none =>
        let r := hookAddMessage s .assistant content
        { r.1 with currentMessageId := some r.2 }
    | some id =>
        hookDispatch s (.updateMessageContent id content)
  hookDispatch s (.setLoading .chat false)

/-- Handler `onCorrection`: attach to the tracked user message, if any; clear the
correction loading flag. -/
def onCorrection (s : HookState) (correction : Correction) : HookState :=
  let s :=
    match s.lastUserMessageId with
    | some id => hookDispatch s (.attachCorrection id correction)
    | none => s
  hookDispatch s (.setLoading .correction false)

/-- The fallback `Correction` attached when the correction branch errors. -/
def unavailableCorrection : Correction :=
  { original := ""
    corrected := ""
    issues := []
    explanation := "Grammar check unavailable for this message." }

/-- Expression `data.message || ('Error in ' + (data.node || 'unknown') + ' node')`. -/
def errorMessageOf (data : ErrorEventData) : String :=
  if data.message = "" then
    "Error in " ++ (if data.node = "" then "unknown" else data.node) ++ " node"
  else data.message

/-- Handler `onError` inside `executeRequest` of `useSSE`. -/
def onError (s : HookState) (data : ErrorEventData) : HookState :=
  let errorMessage := errorMessageOf data
  if data.node = "chat" then
    let s := hookDispatch s (.setError (some errorMessage))
    hookDispatch s (.setLoading .chat false)
  else if data.node = "correction" then
    let s :=
      match s.lastUserMessageId with
      | some id => hookDispatch s (.attachCorrection id unavailableCorrection)
      | none => s
    hookDispatch s (.setLoading .correction false)
  else
    let s := hookDispatch s (.setError (some errorMessage))
    let s := hookDispatch s (.setLoading .chat false)
    hookDispatch s (.setLoading .correction false)

/-- The `switch (currentEventType)` dispatch of `executeRequest`. -/
def dispatchEvent (s : HookState) : SSEEvent → HookState
  | .threadIdEvt t => onThreadId s t
  | .chatResponse c => onChatResponse s c
  | .correctionEvt c => onCorrection s c
  | .errorEvt d => onError s d
  | .complete => onComplete s

/-- Process a sequence of parsed events within one open read loop. -/
def processEvents (s : HookState) : List SSEEvent → HookState
  | [] => s
  | e :: es => processEvents (dispatchEvent s e) es

/-- The synchronous prologue of `executeRequest`: reset
`isCompleteHandledRef`, `cleanup()`, `setError(null)`, reset
`currentMessageIdRef`, raise both loading flags. -/
def executeRequestInit (s : HookState) : HookState :=
  let s := { s with isCompleteHandled := false }
  let s := cleanup s
  let s := hookDispatch s (.setError none)
  let s := { s with currentMessageId := none }
  let s := hookDispatch s (.setLoading .chat true)
  hookDispatch s (.setLoading .correction true)

/-- One invocation of `executeRequest`, given the events the read loop
delivers before it ends.  `ok = true`: the body ends normally (`done`), which
invokes `onComplete`.  `ok = false`: the transport fails after those events
(the promise rejects into `.catch`, which is modelled by the caller). -/
def attemptRun (s : HookState) (events : List SSEEvent) (ok : Bool) : HookState :=
  let s := executeRequestInit s
  let s := { s with isConnected := true }
  let s := processEvents s events
  if ok then onComplete s else s

/-- Message `Connection lost. Reconnecting in ${delay / 1000}s...` -/
def reconnectingMessage (delay : Nat) : String :=
  "Connection lost. Reconnecting in " ++ toString (delay / 1000) ++ "s..."

/-- Message `Connection failed after ${maxReconnectAttempts} attempts. Please try
sending your message again.` -/
def terminalFailureMessage (maxReconnectAttempts : Nat) : String :=
  "Connection failed after " ++ toString maxReconnectAttempts ++
    " attempts. Please try sending your message again."

/-- Run `executeRequest` and its `.catch`-driven retries against a transport
oracle: one `(events, ok)` pair per attempt.  Returns the final hook state,
the number of `executeRequest` invocations actually made, and the backoff
delays used.  Mirrors the `.catch` handler: below the ceiling it surfaces the
reconnecting notice, bumps `reconnectAttemptsRef`, and re-invokes
`executeRequest` after `reconnectBaseDelay * 2 ** attempts`; at the ceiling it
reports terminal failure via `onError` and resets the counter. -/
def runRetries (maxReconnectAttempts reconnectBaseDelay : Nat) :
    HookState → List (List SSEEvent × Bool) → HookState × Nat × List Nat
  | s, [] => (s, 0, [])
  | s, (events, ok) :: rest =>
    let s1 := attemptRun s events ok
    if ok then
      (s1, 1, [])
    else
      let s2 := { s1 with isConnected := false }
      if s2.reconnectCtr < maxReconnectAttempts then
        let delay := reconnectBaseDelay * 2 ^ s2.reconnectCtr
        let s3 := hookDispatch s2 (.setError (some (reconnectingMessage delay)))
        let s4 := { s3 with reconnectCtr := s3.reconnectCtr + 1 }
        let r := runRetries maxReconnectAttempts reconnectBaseDelay s4 rest
        (r.1, r.2.1 + 1, delay :: r.2.2)
      else
        let s3 := onError s2 { node := "unknown",
                               message := terminalFailureMessage maxReconnectAttempts }
        ({ s3 with reconnectCtr := 0 }, 1, [])

/-- Function `sendMessage`: append the user message, remember its id in
`lastUserMessageIdRef`, then run `executeRequest` (with retries, against the
given transport oracle). -/
def sendMessageRun (maxReconnectAttempts reconnectBaseDelay : Nat) (s : HookState)
    (message : String) (oracle : List (List SSEEvent × Bool)) :
    HookState × Nat × List Nat :=
  let (s1, userMessageId) := hookAddMessage s .user message
  let s2 := { s1 with lastUserMessageId := some userMessageId }
  runRetries maxReconnectAttempts reconnectBaseDelay s2 oracle

/-- Function `disconnect`. -/
def disconnect (s : HookState) : HookState :=
  let s := cleanup s
  let s := hookDispatch s (.setLoading .chat false)
  hookDispatch s (.setLoading .correction false)

/-! ## The incremental SSE decoder of `executeRequest`

The read loop accumulates decoded text in `buffer`, splits on `'\n'`, keeps
the (possibly incomplete) trailing line in the buffer, and folds the line
handler over the complete lines.  `currentEventType` / `currentData` live
outside the read loop and persist across chunks.  Strings are `List Char`
here so that line splitting is provable.  Dispatch is modelled as emission of
the raw `(type, payload)` pair handed to `JSON.parse` + the `switch`. -/

/-- JS `str.split('\n')`: never empty, one entry per newline plus the tail. -/
def splitOnNewline : List Char → List (List Char)
  | [] => [[]]
  | c :: rest =>
    if c = '\n' then
      [] :: splitOnNewline rest
    else
      match splitOnNewline rest with
      | [] => [[c]]
      | l :: ls => (c :: l) :: ls

/-- JS `str.trim()` (whitespace stripped from both ends). -/
def trimChars (cs : List Char) : List Char :=
  ((cs.dropWhile Char.isWhitespace).reverse.dropWhile Char.isWhitespace).reverse

/-- The decoder variables of the read loop: `buffer`, `currentEventType`,
`currentData`. -/
structure DecoderState where
  buffer : List Char
  currentEventType : List Char
  currentData : List Char
deriving DecidableEq, Repr

/-- Decoder state at the top of the read loop: all three strings empty. -/
def initialDecoder : DecoderState :=
  { buffer := [], currentEventType := [], currentData := [] }

/-- The body of `for (const line of lines)`: returns the next decoder state
and the `(type, payload)` pairs dispatched while handling this line. -/
def processLine (d : DecoderState) (line : List Char) :
    DecoderState × List (List Char × List Char) :=
  if "event:".toList.isPrefixOf line then
    ({ d with currentEventType := trimChars (line.drop 6) }, [])
  else if "data:".toList.isPrefixOf line then
    let currentData := trimChars (line.drop 5)
    if d.currentEventType ≠ [] ∧ currentData ≠ [] then
      ({ d with currentEventType := [], currentData := [] },
       [(d.currentEventType, currentData)])
    else
      ({ d with currentData := currentData }, [])
  else if line = [] then
    ({ d with currentEventType := [], currentData := [] }, [])
  else
    (d, [])

/-- Fold `processLine` over a list of complete lines. -/
def processLinesD (d : DecoderState) :
    List (List Char) → DecoderState × List (List Char × List Char)
  | [] => (d, [])
  | l :: ls =>
    let r1 := processLine d l
    let r2 := processLinesD r1.1 ls
    (r2.1, r1.2 ++ r2.2)

/-- Expression `lines.pop() || ''`: the last line of a split (`''` when there is none). -/
def lastLine : List (List Char) → List Char
  | [] => []
  | [x] => x
  | _ :: x :: xs => lastLine (x :: xs)

/-- One iteration of the read loop on a received chunk:
`buffer += chunk; lines = buffer.split('\n'); buffer = lines.pop() || ''`,
then handle each complete line. -/
def processChunk (d : DecoderState) (chunk : List Char) :
    DecoderState × List (List Char × List Char) :=
  let all := splitOnNewline (d.buffer ++ chunk)
  processLinesD { d with buffer := lastLine all } all.dropLast

/-- Fold the read loop over successive chunks. -/
def processChunks (d : DecoderState) :
    List (List Char) → DecoderState × List (List Char × List Char)
  | [] => (d, [])
  | c :: cs =>
    let r1 := processChunk d c
    let r2 := processChunks r1.1 cs
    (r2.1, r1.2 ++ r2.2)

/-! ## `handleSend` of `MessageInput` -/

/-- JS `text.trim()` on `String`. -/
def trimString (text : String) : String :=
  ⟨trimChars text.toList⟩

/-- Function `handleSend`: trim the input; an empty trimmed input is rejected
synchronously (`if (!trimmed) return`), otherwise the trimmed text is handed
to `onSend` (= `sendMesssage`).  Returns the submitted text, if any. -/
def handleSend (text : String) : Option String :=
  let trimmed := trimString text
  if trimmed = "" then none else some trimmed

/-- Function `handleSend` at the state level: the rejected branch performs no state
change and issues no request; the accepted branch runs `sendMessage` against
the transport oracle.  The `Nat` component counts `executeRequest`
invocations (requests issued). -/
def handleSendRun (maxReconnectAttempts reconnectBaseDelay : Nat) (s : HookState)
    (text : String) (oracle : List (List SSEEvent × Bool)) :
    HookState × Nat × List Nat :=
  match handleSend text with
  | none => (s, 0, [])
  | some trimmed => sendMessageRun maxReconnectAttempts reconnectBaseDelay s trimmed oracle

/-! ## Derived notions used by the verification -/

/-- Number of user-role messages in a message list. -/
def countUserMessages (l : List Message) : Nat :=
  l.countP fun m => decide (m.role = Role.user)

/-- The two reducer actions that replace the whole message list: the explicit
thread reset and the bulk history load from persistence. -/
def isBulkReset : ChatAction → Bool
  | .clearThread => true
  | .loadHistory _ => true
  | _ => false

/-- The operations the `useSSE` hook can perform on its state: a submission
(`sendMessage` = append + track + `executeRequest` prologue), delivery of one
parsed event inside the read loop, a retry re-invocation of `executeRequest`,
the end-of-stream `onComplete`, `disconnect`, the new-conversation reset, and
the two `.catch` outcomes. -/
inductive ClientOp
  | send (message : String)
  | deliver (e : SSEEvent)
  | reqInit
  | readLoopDone
  | discOp
  | newConversation
  | failRetry (delay : Nat)
  | failTerminal (maxReconnectAttempts : Nat)

/-- Apply one client operation to the hook state. -/
def applyOp (s : HookState) : ClientOp → HookState
  | .send message =>
      let r := hookAddMessage s .user message
      executeRequestInit { r.1 with lastUserMessageId := some r.2 }
  | .deliver e => dispatchEvent s e
  | .reqInit => executeRequestInit s
  | .readLoopDone => onComplete s
  | .discOp => disconnect s
  | .newConversation => hookDispatch s .clearThread
  | .failRetry delay =>
      { hookDispatch { s with isConnected := false }
          (.setError (some (reconnectingMessage delay))) with
        reconnectCtr := s.reconnectCtr + 1 }
  | .failTerminal maxReconnectAttempts =>
      { onError { s with isConnected := false }
          { node := "unknown", message := terminalFailureMessage maxReconnectAttempts } with
        reconnectCtr := 0 }

/-- Run a sequence of client operations from a state. -/
def runOps (s : HookState) : List ClientOp → HookState
  | [] => s
  | op :: ops => runOps (applyOp s op) ops

/-- The inductive invariant: assistant messages never carry a correction, any
message carrying the tracked id has role user, all message ids are below the
fresh-id supply, and so is the tracked id. -/
def HookInv (s : HookState) : Prop :=
  (∀ m ∈ s.chat.messages, m.role = Role.assistant → m.correction = none) ∧
  (∀ m ∈ s.chat.messages, s.lastUserMessageId = some m.id → m.role = Role.user) ∧
  (∀ m ∈ s.chat.messages, m.id < s.nextId) ∧
  (∀ t, s.lastUserMessageId = some t → t < s.nextId)

/-- Prepend a partial segment to the head of a line split (the glue operation
that describes how `split` distributes over append). -/
def headPrepend (x : List Char) : List (List Char) → List (List Char)
  | [] => [x]
  | h :: t => (x ++ h) :: t

/-- A user message as appended by `sendMessage` on a fresh store. -/
def msgHello : Message :=
  { id := 0, role := Role.user, content := "hello", timestamp := 0, correction := none }

/-- A hook state right after `sendMessage` appended `msgHello` and tracked it. -/
def sampleHook : HookState :=
  { initialHook with
      chat := { initialState with messages := [msgHello] }
      lastUserMessageId := some 0
      nextId := 1 }

/-- A concrete correction payload. -/
def sampleCorrection : Correction :=
  { original := "I go to school yesterday"
    corrected := "I went to school yesterday"
    issues := ["Past tense: go -> went"]
    explanation := "Use past tense for yesterday." }

/-! ## Helper lemmas -/

theorem map_id_of_mem {α : Type} {l : List α} {f : α → α} (h : ∀ x ∈ l, f x = x) :
    l.map f = l := by
  induction l with
  | nil => rfl
  | cons x xs ih =>
      simp only [List.map_cons, List.cons.injEq]
      exact ⟨h x (by simp), ih fun y hy => h y (by simp [hy])⟩

/-! ## Claim C10: frame property of `UPDATE_MESSAGE_CONTENT` -/

/-- Claim C10. `UPDATE_MESSAGE_CONTENT` modifies only the `content` field of the
message whose id matches: all other fields of `ChatState` are untouched, the
message list keeps its length and order, every non-matching message is
unchanged, the matching message changes only in `content`, and if no message
has the id, the whole state is unchanged. -/
theorem C10_updateMessageContent_frame
    (s : ChatState) (messageId : Nat) (content : String) :
    (chatReducer s (.updateMessageContent messageId content)).threadId = s.threadId ∧
    (chatReducer s (.updateMessageContent messageId content)).loading = s.loading ∧
    (chatReducer s (.updateMessageContent messageId content)).error = s.error ∧
    (chatReducer s (.updateMessageContent messageId content)).messages.length
      = s.messages.length ∧
    (∀ i (h : i < s.messages.length)
        (h2 : i < (chatReducer s (.updateMessageContent messageId content)).messages.length),
      ((s.messages.get ⟨i, h⟩).id = messageId →
        (chatReducer s (.updateMessageContent messageId content)).messages.get ⟨i, h2⟩
          = { s.messages.get ⟨i, h⟩ with content := content }) ∧
      ((s.messages.get ⟨i, h⟩).id ≠ messageId →
        (chatReducer s (.updateMessageContent messageId content)).messages.get ⟨i, h2⟩
          = s.messages.get ⟨i, h⟩)) ∧
    ((∀ m ∈ s.messages, m.id ≠ messageId) →
      chatReducer s (.updateMessageContent messageId content) = s) := by
  refine ⟨rfl, rfl, rfl, by simp [chatReducer], ?_, ?_⟩
  · intro i h h2
    constructor <;> intro hid <;>
      simp only [List.get_eq_getElem] at hid ⊢ <;>
      simp [chatReducer, List.getElem_map, hid]
  · intro hall
    have hmap : s.messages.map
        (fun msg => if msg.id = messageId then { msg with content := content } else msg)
        = s.messages :=
      map_id_of_mem fun m hm => by simp [hall m hm]
    simp [chatReducer, hmap]

/-- Witness for C10 at a concrete state and id. -/
theorem C10_updateMessageContent_frame_witness :
    (chatReducer { initialState with
        messages := [{ id := 0, role := Role.user, content := "hello", timestamp := 0,
                       correction := none }] }
      (.updateMessageContent 7 "bye"))
      = { initialState with
          messages := [{ id := 0, role := Role.user, content := "hello", timestamp := 0,
                         correction := none }] } :=
  (C10_updateMessageContent_frame
      { initialState with
        messages := [{ id := 0, role := Role.user, content := "hello", timestamp := 0,
                       correction := none }] } 7 "bye").2.2.2.2.2
    (by decide)

/-! ## Claim C5: corrections attach to the tracked user message only -/

/-- Claim C5. A received `correction` event attaches the `Correction` to the
message whose id is in `lastUserMessageIdRef` and to no other message (every
message with a different id is unchanged, positions preserved); if no user
message is tracked, no message is modified.  In both cases the correction
loading flag is cleared. -/
theorem C5_correction_attaches_to_tracked_message (s : HookState) (c : Correction) :
    (onCorrection s c).chat.loading.correction = false ∧
    (s.lastUserMessageId = none → (onCorrection s c).chat.messages = s.chat.messages) ∧
    (∀ trackedId, s.lastUserMessageId = some trackedId →
      (onCorrection s c).chat.messages.length = s.chat.messages.length ∧
      ∀ i (h : i < s.chat.messages.length)
          (h2 : i < (onCorrection s c).chat.messages.length),
        ((s.chat.messages.get ⟨i, h⟩).id = trackedId →
          (onCorrection s c).chat.messages.get ⟨i, h2⟩
            = { s.chat.messages.get ⟨i, h⟩ with correction := some c }) ∧
        ((s.chat.messages.get ⟨i, h⟩).id ≠ trackedId →
          (onCorrection s c).chat.messages.get ⟨i, h2⟩ = s.chat.messages.get ⟨i, h⟩)) := by
  refine ⟨?_, ?_, ?_⟩
  · cases hl : s.lastUserMessageId <;>
      simp [onCorrection, hl, hookDispatch, chatReducer, LoadingState.set]
  · intro hl
    simp [onCorrection, hl, hookDispatch, chatReducer]
  · intro trackedId hl
    refine ⟨by simp [onCorrection, hl, hookDispatch, chatReducer], ?_⟩
    intro i h h2
    constructor <;> intro hid <;>
      simp only [List.get_eq_getElem] at hid ⊢ <;>
      simp [onCorrection, hl, hookDispatch, chatReducer, List.getElem_map, hid]

/-- Witness for C5: a concrete correction event on a state tracking message 0
attaches exactly there. -/
theorem C5_correction_attaches_to_tracked_message_witness :
    (onCorrection sampleHook sampleCorrection).chat.messages.get ⟨0, by decide⟩
      = { msgHello with correction := some sampleCorrection } :=
  (((C5_correction_attaches_to_tracked_message sampleHook sampleCorrection).2.2 0
      rfl).2 0 (by decide) (by decide)).1 rfl

/-! ## Claim C4: role-scoped handling of `error` events -/

/-- Claim C4. An `error` event for the chat (reply) role sets the visible error
message and clears the chat loading flag, leaving messages and the correction
flag alone; an `error` event for the correction role attaches the local
"unavailable" `Correction` to the tracked user message, clears the correction
loading flag, and does not set the visible error. -/
theorem C4_error_event_role_handling (s : HookState) (data : ErrorEventData) :
    (data.node = "chat" →
      (onError s data).chat.error = some (errorMessageOf data) ∧
      (onError s data).chat.loading.chat = false ∧
      (onError s data).chat.messages = s.chat.messages ∧
      (onError s data).chat.loading.correction = s.chat.loading.correction) ∧
    (data.node = "correction" →
      (onError s data).chat.error = s.chat.error ∧
      (onError s data).chat.loading.correction = false ∧
      (onError s data).chat.loading.chat = s.chat.loading.chat ∧
      (s.lastUserMessageId = none → (onError s data).chat.messages = s.chat.messages) ∧
      (∀ trackedId, s.lastUserMessageId = some trackedId →
        ∀ i (h : i < s.chat.messages.length)
            (h2 : i < (onError s data).chat.messages.length),
          ((s.chat.messages.get ⟨i, h⟩).id = trackedId →
            (onError s data).chat.messages.get ⟨i, h2⟩
              = { s.chat.messages.get ⟨i, h⟩ with
                  correction := some unavailableCorrection }) ∧
          ((s.chat.messages.get ⟨i, h⟩).id ≠ trackedId →
            (onError s data).chat.messages.get ⟨i, h2⟩ = s.chat.messages.get ⟨i, h⟩))) := by
  constructor
  · intro hn
    simp [onError, hn, hookDispatch, chatReducer, LoadingState.set]
  · intro hn
    refine ⟨?_, ?_, ?_, ?_, ?_⟩
    · cases hl : s.lastUserMessageId <;>
        simp [onError, hn, hl, hookDispatch, chatReducer, LoadingState.set]
    · cases hl : s.lastUserMessageId <;>
        simp [onError, hn, hl, hookDispatch, chatReducer, LoadingState.set]
    · cases hl : s.lastUserMessageId <;>
        simp [onError, hn, hl, hookDispatch, chatReducer, LoadingState.set]
    · intro hl
      simp [onError, hn, hl, hookDispatch, chatReducer]
    · intro trackedId hl i h h2
      constructor <;> intro hid <;>
        simp only [List.get_eq_getElem] at hid ⊢ <;>
        simp [onError, hn, hl, hookDispatch, chatReducer, List.getElem_map, hid]

/-- Witness for C4: a concrete correction-node error on a state tracking
message 0 attaches the fallback correction and leaves the error field unset. -/
theorem C4_error_event_role_handling_witness :
    (onError sampleHook { node := "correction", message := "boom" }).chat.error
      = sampleHook.chat.error :=
  ((C4_error_event_role_handling sampleHook
      { node := "correction", message := "boom" }).2 rfl).1

/-! ## Claim C8: whitespace-only input is rejected with no side effects -/

theorem trimChars_nil_of_all_whitespace {cs : List Char}
    (h : ∀ c ∈ cs, c.isWhitespace) : trimChars cs = [] := by
  have h1 : cs.dropWhile Char.isWhitespace = [] := List.dropWhile_eq_nil_iff.mpr h
  simp [trimChars, h1]

/-- Claim C8. Submitting an input that is empty or all whitespace is rejected
synchronously before any request: `handleSend` returns without invoking
`onSend`, no user message is appended, no request attempt is made, and the
hook state is unchanged. -/
theorem C8_whitespace_input_rejected (text : String) (s : HookState)
    (maxReconnectAttempts reconnectBaseDelay : Nat)
    (oracle : List (List SSEEvent × Bool))
    (h : text.toList.all Char.isWhitespace = true) :
    handleSend text = none ∧
    handleSendRun maxReconnectAttempts reconnectBaseDelay s text oracle = (s, 0, []) := by
  have hall : ∀ c ∈ text.toList, Char.isWhitespace c := List.all_eq_true.mp h
  have htrim : trimString text = "" := by
    unfold trimString
    rw [trimChars_nil_of_all_whitespace hall]
  have hnone : handleSend text = none := by
    simp [handleSend, htrim]
  exact ⟨hnone, by simp [handleSendRun, hnone]⟩

/-- Witness for C8 on the concrete input `"   "`. -/
theorem C8_whitespace_input_rejected_witness :
    handleSend "   " = none ∧
    handleSendRun 3 1000 initialHook "   " [] = (initialHook, 0, []) :=
  C8_whitespace_input_rejected "   " initialHook 3 1000 [] (by decide)

/-! ## Claim C2: retries never duplicate the user message -/

theorem countUser_map_role_preserving {f : Message → Message}
    (hf : ∀ m, (f m).role = m.role) (l : List Message) :
    countUserMessages (l.map f) = countUserMessages l := by
  induction l with
  | nil => rfl
  | cons x xs ih =>
      simp only [countUserMessages, List.map_cons, List.countP_cons] at *
      rw [ih, hf]

theorem countUser_attach (s : HookState) (id : Nat) (c : Correction) :
    countUserMessages (hookDispatch s (.attachCorrection id c)).chat.messages
      = countUserMessages s.chat.messages := by
  apply countUser_map_role_preserving
  intro m
  by_cases h : m.id = id <;> simp [h]

theorem countUser_update (s : HookState) (id : Nat) (content : String) :
    countUserMessages (hookDispatch s (.updateMessageContent id content)).chat.messages
      = countUserMessages s.chat.messages := by
  apply countUser_map_role_preserving
  intro m
  by_cases h : m.id = id <;> simp [h]

@[simp]
theorem messages_hookDispatch_setError (s : HookState) (e : Option String) :
    (hookDispatch s (.setError e)).chat.messages = s.chat.messages := rfl

@[simp]
theorem messages_hookDispatch_setLoading (s : HookState) (k : LoadingKey) (v : Bool) :
    (hookDispatch s (.setLoading k v)).chat.messages = s.chat.messages := rfl

@[simp]
theorem messages_hookDispatch_setThreadId (s : HookState) (t : String) :
    (hookDispatch s (.setThreadId t)).chat.messages = s.chat.messages := rfl

@[simp]
theorem countUser_onComplete (s : HookState) :
    countUserMessages (onComplete s).chat.messages = countUserMessages s.chat.messages := by
  unfold onComplete onCompleteEffects cleanup
  by_cases h : s.isCompleteHandled <;> simp [h]

@[simp]
theorem countUser_onError (s : HookState) (data : ErrorEventData) :
    countUserMessages (onError s data).chat.messages = countUserMessages s.chat.messages := by
  unfold onError
  by_cases h1 : data.node = "chat"
  · simp [h1]
  · by_cases h2 : data.node = "correction"
    · cases hl : s.lastUserMessageId with
      | none => simp [h1, h2, hl]
      | some id =>
          simp only [h1, h2, hl, if_false, if_true]
          simpa using countUser_attach s id unavailableCorrection
    · simp [h1, h2]

@[simp]
theorem countUser_dispatchEvent (s : HookState) (e : SSEEvent) :
    countUserMessages (dispatchEvent s e).chat.messages
      = countUserMessages s.chat.messages := by
  cases e with
  | threadIdEvt t => rfl
  | chatResponse c =>
      unfold dispatchEvent onChatResponse
      cases hc : s.currentMessageId with
      | none =>
          simp [hc, hookAddMessage, hookDispatch, chatReducer, countUserMessages,
            List.countP_append]
      | some id =>
          simpa [hc] using countUser_update s id c
  | correctionEvt c =>
      unfold dispatchEvent onCorrection
      cases hl : s.lastUserMessageId with
      | none => rfl
      | some id => simpa [hl] using countUser_attach s id c
  | errorEvt d => simp [dispatchEvent]
  | complete => simp [dispatchEvent]

@[simp]
theorem countUser_processEvents (events : List SSEEvent) :
    ∀ s : HookState, countUserMessages (processEvents s events).chat.messages
      = countUserMessages s.chat.messages := by
  induction events with
  | nil => intro s; rfl
  | cons e es ih =>
      intro s
      simp only [processEvents]
      rw [ih, countUser_dispatchEvent]

@[simp]
theorem countUser_attemptRun (s : HookState) (events : List SSEEvent) (ok : Bool) :
    countUserMessages (attemptRun s events ok).chat.messages
      = countUserMessages s.chat.messages := by
  have hinit : countUserMessages (executeRequestInit s).chat.messages
      = countUserMessages s.chat.messages := rfl
  unfold attemptRun
  cases ok <;> simp <;> exact hinit

theorem countUser_runRetries (maxReconnectAttempts reconnectBaseDelay : Nat)
    (oracle : List (List SSEEvent × Bool)) :
    ∀ s : HookState,
      countUserMessages
          (runRetries maxReconnectAttempts reconnectBaseDelay s oracle).1.chat.messages
        = countUserMessages s.chat.messages := by
  induction oracle with
  | nil => intro s; rfl
  | cons p rest ih =>
      intro s
      obtain ⟨events, ok⟩ := p
      cases ok with
      | true => simp [runRetries]
      | false =>
          simp only [runRetries]
          by_cases hctr : (attemptRun s events false).reconnectCtr < maxReconnectAttempts
          · simp [hctr, ih]
          · simp [hctr]

/-- Claim C2. Across a submission and any sequence of transport-failure retries,
the user message is appended exactly once: `sendMessage` appends it before the
first attempt, and `executeRequest` (hence every retry) never appends a
user-role message. -/
theorem C2_user_message_appended_once (s : HookState) (message : String)
    (maxReconnectAttempts reconnectBaseDelay : Nat)
    (oracle : List (List SSEEvent × Bool)) :
    countUserMessages
        (sendMessageRun maxReconnectAttempts reconnectBaseDelay s message oracle).1.chat.messages
      = countUserMessages s.chat.messages + 1 ∧
    (∀ events ok, countUserMessages (attemptRun s events ok).chat.messages
      = countUserMessages s.chat.messages) := by
  constructor
  · unfold sendMessageRun
    rw [countUser_runRetries]
    simp [hookAddMessage, hookDispatch, chatReducer, countUserMessages, List.countP_append]
  · intro events ok
    exact countUser_attemptRun s events ok

/-! ## Claim C9: terminal handling is idempotent -/

theorem isCompleteHandled_onComplete (s : HookState) :
    (onComplete s).isCompleteHandled = true := by
  unfold onComplete onCompleteEffects cleanup
  by_cases h : s.isCompleteHandled <;> simp [h, hookDispatch]

theorem onComplete_of_handled {s : HookState} (h : s.isCompleteHandled = true) :
    onComplete s = s := by
  simp [onComplete, h]

theorem dispatchEvent_handled_mono (s : HookState) (e : SSEEvent)
    (h : s.isCompleteHandled = true) : (dispatchEvent s e).isCompleteHandled = true := by
  cases e with
  | threadIdEvt t => exact h
  | chatResponse c =>
      unfold dispatchEvent onChatResponse
      cases hc : s.currentMessageId <;> simp [hc, hookAddMessage, hookDispatch, h]
  | correctionEvt c =>
      unfold dispatchEvent onCorrection
      cases hl : s.lastUserMessageId <;> simp [hl, hookDispatch, h]
  | errorEvt d =>
      unfold dispatchEvent onError
      by_cases h1 : d.node = "chat"
      · simpa [h1, hookDispatch] using h
      · by_cases h2 : d.node = "correction"
        · cases hl : s.lastUserMessageId <;> simp [h1, h2, hl, hookDispatch, h]
        · simp [h1, h2, hookDispatch, h]
  | complete =>
      simpa [dispatchEvent, onComplete_of_handled h] using h

theorem processEvents_handled_mono (events : List SSEEvent) :
    ∀ s : HookState, s.isCompleteHandled = true →
      (processEvents s events).isCompleteHandled = true := by
  induction events with
  | nil => intro s h; exact h
  | cons e es ih =>
      intro s h
      exact ih _ (dispatchEvent_handled_mono s e h)

theorem handled_after_complete (events : List SSEEvent) :
    ∀ s : HookState, SSEEvent.complete ∈ events →
      (processEvents s events).isCompleteHandled = true := by
  induction events with
  | nil => intro s h; cases h
  | cons e es ih =>
      intro s h
      rcases List.mem_cons.mp h with he | hes
      · subst he
        exact processEvents_handled_mono es _
          (by simpa [processEvents, dispatchEvent] using isCompleteHandled_onComplete s)
      · exact ih _ hes

theorem processEvents_append (l1 l2 : List SSEEvent) :
    ∀ s : HookState, processEvents s (l1 ++ l2) = processEvents (processEvents s l1) l2 := by
  induction l1 with
  | nil => intro s; rfl
  | cons e es ih => intro s; simp [processEvents, ih]

/-- Claim C9. The terminal effects guarded by `isCompleteHandledRef` are applied
exactly once per request: `onComplete` marks the flag, is idempotent, is a
no-op once the flag is set, applies all completion effects when the flag is
clear, and once a `complete` event has been processed, further `complete`
events and the end-of-stream `onComplete` change nothing. -/
theorem C9_terminal_handling_idempotent (s : HookState) (events : List SSEEvent) :
    (onComplete s).isCompleteHandled = true ∧
    onComplete (onComplete s) = onComplete s ∧
    (s.isCompleteHandled = true → onComplete s = s) ∧
    (s.isCompleteHandled = false →
      onComplete s = onCompleteEffects s ∧
      (onComplete s).chat.loading.chat = false ∧
      (onComplete s).chat.loading.correction = false ∧
      (onComplete s).currentMessageId = none ∧
      (onComplete s).reconnectCtr = 0 ∧
      (onComplete s).isConnected = false) ∧
    (SSEEvent.complete ∈ events →
      processEvents s (events ++ [SSEEvent.complete]) = processEvents s events ∧
      attemptRun s events true = attemptRun s events false) := by
  refine ⟨isCompleteHandled_onComplete s,
    onComplete_of_handled (isCompleteHandled_onComplete s),
    fun h => onComplete_of_handled h, ?_, ?_⟩
  · intro h
    refine ⟨by simp [onComplete, h], ?_, ?_, ?_, ?_, ?_⟩ <;>
      simp [onComplete, h, onCompleteEffects, cleanup, hookDispatch, chatReducer,
        LoadingState.set]
  · intro hmem
    constructor
    · rw [processEvents_append]
      have hh := handled_after_complete events s hmem
      simpa [processEvents, dispatchEvent] using onComplete_of_handled hh
    · unfold attemptRun
      have hh := handled_after_complete events
        { executeRequestInit s with isConnected := true } hmem
      simp [onComplete_of_handled hh]

/-- Witness for C9: with a `complete` event in the stream, the end-of-stream
`onComplete` adds nothing. -/
theorem C9_terminal_handling_idempotent_witness :
    attemptRun initialHook [SSEEvent.complete] true
      = attemptRun initialHook [SSEEvent.complete] false :=
  ((C9_terminal_handling_idempotent initialHook [SSEEvent.complete]).2.2.2.2
    (by simp)).2

/-! ## Claim C1: bounded exponential backoff -/

@[simp]
theorem hookDispatch_currentMessageId (s : HookState) (a : ChatAction) :
    (hookDispatch s a).currentMessageId = s.currentMessageId := rfl

@[simp]
theorem hookDispatch_lastUserMessageId (s : HookState) (a : ChatAction) :
    (hookDispatch s a).lastUserMessageId = s.lastUserMessageId := rfl

@[simp]
theorem hookDispatch_isCompleteHandled (s : HookState) (a : ChatAction) :
    (hookDispatch s a).isCompleteHandled = s.isCompleteHandled := rfl

@[simp]
theorem hookDispatch_reconnectCtr (s : HookState) (a : ChatAction) :
    (hookDispatch s a).reconnectCtr = s.reconnectCtr := rfl

@[simp]
theorem hookDispatch_isConnected (s : HookState) (a : ChatAction) :
    (hookDispatch s a).isConnected = s.isConnected := rfl

@[simp]
theorem hookDispatch_nextId (s : HookState) (a : ChatAction) :
    (hookDispatch s a).nextId = s.nextId := rfl

theorem reconnectCtr_dispatchEvent (s : HookState) (e : SSEEvent)
    (h : e ≠ SSEEvent.complete) :
    (dispatchEvent s e).reconnectCtr = s.reconnectCtr := by
  cases e with
  | threadIdEvt t => rfl
  | chatResponse c =>
      unfold dispatchEvent onChatResponse
      cases hc : s.currentMessageId <;> simp [hc, hookAddMessage, hookDispatch]
  | correctionEvt c =>
      unfold dispatchEvent onCorrection
      cases hl : s.lastUserMessageId <;> simp [hl, hookDispatch]
  | errorEvt d =>
      unfold dispatchEvent onError
      by_cases h1 : d.node = "chat"
      · simp [h1, hookDispatch]
      · by_cases h2 : d.node = "correction"
        · cases hl : s.lastUserMessageId <;> simp [h1, h2, hl, hookDispatch]
        · simp [h1, h2, hookDispatch]
  | complete => exact absurd rfl h

theorem reconnectCtr_processEvents (events : List SSEEvent) :
    ∀ s : HookState, SSEEvent.complete ∉ events →
      (processEvents s events).reconnectCtr = s.reconnectCtr := by
  induction events with
  | nil => intro s _; rfl
  | cons e es ih =>
      intro s h
      rw [processEvents, ih _ (fun hmem => h (List.mem_cons_of_mem e hmem)),
        reconnectCtr_dispatchEvent s e (fun he => h (he ▸ List.mem_cons_self e es))]

theorem reconnectCtr_attemptRun_false (s : HookState) (events : List SSEEvent)
    (h : SSEEvent.complete ∉ events) :
    (attemptRun s events false).reconnectCtr = s.reconnectCtr := by
  unfold attemptRun
  simp [reconnectCtr_processEvents events _ h, executeRequestInit, cleanup, hookDispatch]

theorem onError_unknown_sets_error (s : HookState) (m : String) (hm : ¬ m = "") :
    (onError s { node := "unknown", message := m }).chat.error = some m := by
  simp [onError, errorMessageOf, hookDispatch, chatReducer, hm]

theorem onError_terminal_error (s : HookState) :
    (onError s { node := "unknown", message := terminalFailureMessage 3 }).chat.error
      = some (terminalFailureMessage 3) :=
  onError_unknown_sets_error s _ (by decide)

/-- Claim C1. On read-loop failure before a terminal event the client retries the
same Turn with delay `reconnectBaseDelay * 2 ^ attempt`: three injected
transport failures followed by success make exactly 4 attempts with the
strictly increasing delays `[base, 2*base, 4*base]`; with a fourth failure the
ceiling (3) is reached, a terminal failure message is surfaced, the attempt
counter resets to 0, and no further attempt is made whatever the oracle still
holds. -/
theorem C1_exponential_backoff_retry (base : Nat) (s : HookState)
    (a b c d : List SSEEvent)
    (hbase : 0 < base) (h0 : s.reconnectCtr = 0)
    (ha : SSEEvent.complete ∉ a) (hb : SSEEvent.complete ∉ b)
    (hc : SSEEvent.complete ∉ c) :
    (runRetries 3 base s [(a, false), (b, false), (c, false), (d, true)]).2
        = (4, [base * 2 ^ 0, base * 2 ^ 1, base * 2 ^ 2]) ∧
    List.Chain' (· < ·) [base * 2 ^ 0, base * 2 ^ 1, base * 2 ^ 2] ∧
    (∀ e4 rest, SSEEvent.complete ∉ e4 →
      (runRetries 3 base s
          ((a, false) :: (b, false) :: (c, false) :: (e4, false) :: rest)).2.1 = 4 ∧
      (runRetries 3 base s
          ((a, false) :: (b, false) :: (c, false) :: (e4, false) :: rest)).2.2
        = [base * 2 ^ 0, base * 2 ^ 1, base * 2 ^ 2] ∧
      (runRetries 3 base s
          ((a, false) :: (b, false) :: (c, false) :: (e4, false) :: rest)).1.chat.error
        = some (terminalFailureMessage 3) ∧
      (runRetries 3 base s
          ((a, false) :: (b, false) :: (c, false) :: (e4, false) :: rest)).1.reconnectCtr
        = 0) := by
  refine ⟨?_, ?_, ?_⟩
  · simp only [runRetries]
    simp [reconnectCtr_attemptRun_false, ha, hb, hc, h0]
  · simp [List.chain'_cons, pow_succ]
    omega
  · intro e4 rest he4
    simp only [runRetries]
    simp [reconnectCtr_attemptRun_false, ha, hb, hc, he4, h0, onError_terminal_error]

/-- Witness for C1 at the default configuration (base 1000 ms, ceiling 3):
3 failures then success make 4 attempts with delays 1000, 2000, 4000. -/
theorem C1_exponential_backoff_retry_witness :
    (runRetries 3 1000 initialHook [([], false), ([], false), ([], false), ([], true)]).2
      = (4, [1000 * 2 ^ 0, 1000 * 2 ^ 1, 1000 * 2 ^ 2]) :=
  (C1_exponential_backoff_retry 1000 initialHook [] [] [] [] (by decide) rfl
    (by simp) (by simp) (by simp)).1

/-! ## Claim C7: append-only message history -/

/-- Counterexample to **C7** as stated: `UPDATE_MESSAGE_CONTENT` rewrites the
content of a previously appended message in place (`onTranscription` and
streaming updates rely on this), so message content is not immutable. -/
theorem C7_append_only_counterexample :
    ({ initialState with messages := [msgHello] } : ChatState).messages.map Message.content
        = ["hello"] ∧
    (chatReducer { initialState with messages := [msgHello] }
        (.updateMessageContent 0 "bye")).messages.map Message.content = ["bye"] :=
  ⟨rfl, rfl⟩

/-- Claim C7, amended. For every reducer operation except the explicit reset
(`CLEAR_THREAD`) and the bulk history load (`LOAD_HISTORY`), every message
already in the list keeps its position, and its id, role and timestamp are
never rewritten; the list only grows.  (Content is *not* immutable:
`UPDATE_MESSAGE_CONTENT` rewrites it in place, and `ATTACH_CORRECTION` sets
the correction field.) -/
theorem C7_append_only_amended (s : ChatState) (a : ChatAction)
    (h : isBulkReset a = false) :
    s.messages.length ≤ (chatReducer s a).messages.length ∧
    ∀ i (hi : i < s.messages.length) (hi2 : i < (chatReducer s a).messages.length),
      ((chatReducer s a).messages.get ⟨i, hi2⟩).id = (s.messages.get ⟨i, hi⟩).id ∧
      ((chatReducer s a).messages.get ⟨i, hi2⟩).role = (s.messages.get ⟨i, hi⟩).role ∧
      ((chatReducer s a).messages.get ⟨i, hi2⟩).timestamp
        = (s.messages.get ⟨i, hi⟩).timestamp := by
  cases a with
  | addMessage m =>
      refine ⟨by simp [chatReducer], ?_⟩
      intro i hi hi2
      simp only [chatReducer, List.get_eq_getElem]
      rw [List.getElem_append_left hi]
      exact ⟨rfl, rfl, rfl⟩
  | updateMessageContent messageId content =>
      refine ⟨by simp [chatReducer], ?_⟩
      intro i hi hi2
      simp only [chatReducer, List.get_eq_getElem, List.getElem_map]
      by_cases hid : (s.messages.get ⟨i, hi⟩).id = messageId <;>
        simp only [List.get_eq_getElem] at hid <;> simp [hid]
  | attachCorrection messageId c =>
      refine ⟨by simp [chatReducer], ?_⟩
      intro i hi hi2
      simp only [chatReducer, List.get_eq_getElem, List.getElem_map]
      by_cases hid : (s.messages.get ⟨i, hi⟩).id = messageId <;>
        simp only [List.get_eq_getElem] at hid <;> simp [hid]
  | setThreadId t => exact ⟨le_refl _, fun i hi hi2 => ⟨rfl, rfl, rfl⟩⟩
  | clearThread => simp [isBulkReset] at h
  | setLoading k v => exact ⟨le_refl _, fun i hi hi2 => ⟨rfl, rfl, rfl⟩⟩
  | setError e => exact ⟨le_refl _, fun i hi hi2 => ⟨rfl, rfl, rfl⟩⟩
  | loadHistory ms => simp [isBulkReset] at h

/-- Witness for the amended C7: the content-rewriting operation keeps the id
of the message at position 0. -/
theorem C7_append_only_amended_witness :
    ((chatReducer { initialState with messages := [msgHello] }
        (.updateMessageContent 0 "bye")).messages.get ⟨0, by decide⟩).id
      = (({ initialState with messages := [msgHello] } : ChatState).messages.get
          ⟨0, by decide⟩).id :=
  ((C7_append_only_amended { initialState with messages := [msgHello] }
      (.updateMessageContent 0 "bye") rfl).2 0 (by decide) (by decide)).1

/-! ## Claim C6: corrections live only on user messages, one per message -/

theorem hookInv_initial : HookInv initialHook := by
  refine ⟨?_, ?_, ?_, ?_⟩ <;> intro m hm <;> simp [initialHook, initialState] at hm

theorem hookInv_attach_tracked {s : HookState} (c : Correction) (hinv : HookInv s)
    {trackedId : Nat} (htr : s.lastUserMessageId = some trackedId) :
    HookInv (hookDispatch s (.attachCorrection trackedId c)) := by
  obtain ⟨h1, h2, h3, h4⟩ := hinv
  refine ⟨?_, ?_, ?_, ?_⟩
  · intro m hm
    simp only [hookDispatch, chatReducer, List.mem_map] at hm
    obtain ⟨m0, hm0, rfl⟩ := hm
    by_cases hid : m0.id = trackedId
    · have : m0.role = Role.user := h2 m0 hm0 (by rw [htr, hid])
      simp [hid, this]
    · simpa [hid] using h1 m0 hm0
  · intro m hm
    simp only [hookDispatch, chatReducer, List.mem_map] at hm
    obtain ⟨m0, hm0, rfl⟩ := hm
    by_cases hid : m0.id = trackedId <;>
      simpa [hid, hookDispatch] using h2 m0 hm0
  · intro m hm
    simp only [hookDispatch, chatReducer, List.mem_map] at hm
    obtain ⟨m0, hm0, rfl⟩ := hm
    by_cases hid : m0.id = trackedId <;> simpa [hid] using h3 m0 hm0
  · intro t ht
    exact h4 t ht

theorem hookInv_chat_only {s s2 : HookState} (hinv : HookInv s)
    (hm : s2.chat.messages = s.chat.messages)
    (hl : s2.lastUserMessageId = s.lastUserMessageId)
    (hn : s2.nextId = s.nextId) : HookInv s2 := by
  obtain ⟨h1, h2, h3, h4⟩ := hinv
  refine ⟨?_, ?_, ?_, ?_⟩
  · intro m hmm
    exact h1 m (hm ▸ hmm)
  · intro m hmm ht
    exact h2 m (hm ▸ hmm) (hl ▸ ht)
  · intro m hmm
    exact hn ▸ h3 m (hm ▸ hmm)
  · intro t ht
    exact hn ▸ h4 t (hl ▸ ht)

theorem hookInv_onComplete {s : HookState} (hinv : HookInv s) :
    HookInv (onComplete s) := by
  unfold onComplete onCompleteEffects cleanup
  by_cases h : s.isCompleteHandled
  · simpa [h] using hinv
  · simp only [h, if_neg, Bool.false_eq_true, if_false]
    exact hookInv_chat_only hinv (by simp) (by simp) (by simp)

theorem hookInv_onError {s : HookState} (data : ErrorEventData) (hinv : HookInv s) :
    HookInv (onError s data) := by
  unfold onError
  by_cases hn1 : data.node = "chat"
  · simp only [hn1, if_true]
    exact hookInv_chat_only hinv (by simp) (by simp) (by simp)
  · by_cases hn2 : data.node = "correction"
    · simp only [hn1, hn2, if_false, if_true]
      cases htr : s.lastUserMessageId with
      | none =>
          exact hookInv_chat_only hinv (by simp) (by simp) (by simp)
      | some trackedId =>
          exact hookInv_chat_only
            (hookInv_attach_tracked unavailableCorrection hinv htr)
            (by simp) (by simp) (by simp)
    · simp only [hn1, hn2, if_false]
      exact hookInv_chat_only hinv (by simp) (by simp) (by simp)

theorem hookInv_applyOp (s : HookState) (op : ClientOp) (hinv : HookInv s) :
    HookInv (applyOp s op) := by
  obtain ⟨h1, h2, h3, h4⟩ := hinv
  cases op with
  | send message =>
      refine ⟨?_, ?_, ?_, ?_⟩
      · intro m hm
        simp only [applyOp, hookAddMessage, executeRequestInit, cleanup, hookDispatch,
          chatReducer, List.mem_append, List.mem_singleton] at hm
        rcases hm with hm | rfl
        · exact h1 m hm
        · intro hrole
          cases hrole
      · intro m hm ht
        simp only [applyOp, hookAddMessage, executeRequestInit, cleanup, hookDispatch,
          chatReducer, List.mem_append, List.mem_singleton] at hm
        simp only [applyOp, hookAddMessage, executeRequestInit, cleanup, hookDispatch] at ht
        rcases hm with hm | rfl
        · exfalso
          have hlt := h3 m hm
          simp at ht
          omega
        · rfl
      · intro m hm
        simp only [applyOp, hookAddMessage, executeRequestInit, cleanup, hookDispatch,
          chatReducer, List.mem_append, List.mem_singleton] at hm
        simp only [applyOp, hookAddMessage, executeRequestInit, cleanup, hookDispatch]
        rcases hm with hm | rfl
        · have := h3 m hm
          simp
          omega
        · simp
      · intro t ht
        simp only [applyOp, hookAddMessage, executeRequestInit, cleanup, hookDispatch] at ht ⊢
        simp at ht
        omega
  | deliver e =>
      cases e with
      | threadIdEvt t =>
          exact hookInv_chat_only ⟨h1, h2, h3, h4⟩
            (by simp [applyOp, dispatchEvent, onThreadId])
            (by simp [applyOp, dispatchEvent, onThreadId])
            (by simp [applyOp, dispatchEvent, onThreadId])
      | chatResponse content =>
          simp only [applyOp, dispatchEvent, onChatResponse]
          cases hc : s.currentMessageId with
          | some id =>
              have hX : HookInv (hookDispatch s (.updateMessageContent id content)) := by
                refine ⟨?_, ?_, ?_, ?_⟩
                · intro m hm
                  simp only [hookDispatch, chatReducer, List.mem_map] at hm
                  obtain ⟨m0, hm0, rfl⟩ := hm
                  by_cases hid : m0.id = id <;> simpa [hid] using h1 m0 hm0
                · intro m hm ht
                  simp only [hookDispatch, chatReducer, List.mem_map] at hm
                  obtain ⟨m0, hm0, rfl⟩ := hm
                  simp only [hookDispatch_lastUserMessageId] at ht
                  by_cases hid : m0.id = id <;>
                    simpa [hid] using h2 m0 hm0 (by simpa [hid] using ht)
                · intro m hm
                  simp only [hookDispatch, chatReducer, List.mem_map] at hm
                  obtain ⟨m0, hm0, rfl⟩ := hm
                  by_cases hid : m0.id = id <;> simpa [hid] using h3 m0 hm0
                · intro t ht
                  simp only [hookDispatch_lastUserMessageId] at ht
                  exact h4 t ht
              exact hookInv_chat_only hX rfl rfl rfl
          | none =>
              have hX : HookInv { (hookAddMessage s Role.assistant content).1 with
                  currentMessageId := some (hookAddMessage s Role.assistant content).2 } := by
                refine ⟨?_, ?_, ?_, ?_⟩
                · intro m hm
                  simp only [hookAddMessage, chatReducer, List.mem_append,
                    List.mem_singleton] at hm
                  rcases hm with hm | rfl
                  · exact h1 m hm
                  · intro _
                    rfl
                · intro m hm ht
                  simp only [hookAddMessage, chatReducer, List.mem_append,
                    List.mem_singleton] at hm
                  simp only [hookAddMessage] at ht
                  rcases hm with hm | rfl
                  · exact h2 m hm ht
                  · exfalso
                    have := h4 s.nextId ht
                    omega
                · intro m hm
                  simp only [hookAddMessage, chatReducer, List.mem_append,
                    List.mem_singleton] at hm
                  simp only [hookAddMessage]
                  rcases hm with hm | rfl
                  · have := h3 m hm
                    simp
                    omega
                  · simp
                · intro t ht
                  simp only [hookAddMessage] at ht ⊢
                  have := h4 t ht
                  simp
                  omega
              exact hookInv_chat_only hX rfl rfl rfl
      | correctionEvt c =>
          simp only [applyOp, dispatchEvent, onCorrection]
          cases htr : s.lastUserMessageId with
          | none =>
              exact hookInv_chat_only ⟨h1, h2, h3, h4⟩ rfl rfl rfl
          | some trackedId =>
              exact hookInv_chat_only
                (hookInv_attach_tracked c ⟨h1, h2, h3, h4⟩ htr) rfl rfl rfl
      | errorEvt d =>
          simpa [applyOp, dispatchEvent] using hookInv_onError d ⟨h1, h2, h3, h4⟩
      | complete =>
          simpa [applyOp, dispatchEvent] using hookInv_onComplete ⟨h1, h2, h3, h4⟩
  | reqInit =>
      exact hookInv_chat_only ⟨h1, h2, h3, h4⟩
        (by simp [applyOp, executeRequestInit, cleanup])
        (by simp [applyOp, executeRequestInit, cleanup])
        (by simp [applyOp, executeRequestInit, cleanup])
  | readLoopDone =>
      simpa [applyOp] using hookInv_onComplete ⟨h1, h2, h3, h4⟩
  | discOp =>
      exact hookInv_chat_only ⟨h1, h2, h3, h4⟩
        (by simp [applyOp, disconnect, cleanup])
        (by simp [applyOp, disconnect, cleanup])
        (by simp [applyOp, disconnect, cleanup])
  | newConversation =>
      refine ⟨?_, ?_, ?_, ?_⟩
      · intro m hm
        simp [applyOp, hookDispatch, chatReducer, initialState] at hm
      · intro m hm
        simp [applyOp, hookDispatch, chatReducer, initialState] at hm
      · intro m hm
        simp [applyOp, hookDispatch, chatReducer, initialState] at hm
      · intro t ht
        simp only [applyOp, hookDispatch_lastUserMessageId, hookDispatch_nextId] at ht ⊢
        exact h4 t ht
  | failRetry delay =>
      exact hookInv_chat_only ⟨h1, h2, h3, h4⟩ rfl rfl rfl
  | failTerminal maxReconnectAttempts =>
      exact hookInv_chat_only
        (hookInv_onError
          { node := "unknown", message := terminalFailureMessage maxReconnectAttempts }
          (hookInv_chat_only ⟨h1, h2, h3, h4⟩ rfl rfl rfl))
        rfl rfl rfl

theorem hookInv_runOps (ops : List ClientOp) :
    ∀ s : HookState, HookInv s → HookInv (runOps s ops) := by
  induction ops with
  | nil => intro s h; exact h
  | cons op rest ih =>
      intro s h
      exact ih _ (hookInv_applyOp s op h)

/-- Claim C6. In every client state reachable by hook operations, assistant
messages never carry a `Correction` (corrections are only attached via the
tracked id of a message appended with role user), and attaching a second
`Correction` to the same message replaces the first — the message ends up
with exactly the last one. -/
theorem C6_correction_invariant (ops : List ClientOp) (s : ChatState) (id : Nat)
    (c c2 : Correction) :
    (∀ m ∈ (runOps initialHook ops).chat.messages,
        m.role = Role.assistant → m.correction = none) ∧
    (∀ m ∈ (chatReducer (chatReducer s (.attachCorrection id c))
        (.attachCorrection id c2)).messages,
      m.id = id → m.correction = some c2) := by
  constructor
  · exact (hookInv_runOps ops initialHook hookInv_initial).1
  · intro m hm hid
    simp only [chatReducer, List.map_map, List.mem_map] at hm
    obtain ⟨m0, hm0, rfl⟩ := hm
    by_cases h0 : m0.id = id
    · simp [Function.comp, h0]
    · simp [Function.comp, h0] at hid

/-- Witness for C6: in a concrete reachable run (submit, reply, correction),
the assistant message carries no correction. -/
theorem C6_correction_invariant_witness :
    ({ id := 1, role := Role.assistant, content := "Nice!", timestamp := 1,
       correction := none } : Message).correction = none :=
  (C6_correction_invariant
      [ClientOp.send "hello", ClientOp.deliver (SSEEvent.chatResponse "Nice!"),
       ClientOp.deliver (SSEEvent.correctionEvt sampleCorrection)]
      initialState 0 sampleCorrection sampleCorrection).1
    { id := 1, role := Role.assistant, content := "Nice!", timestamp := 1,
      correction := none }
    (by decide) rfl

/-! ## Claim C3: the incremental SSE decoder -/

theorem splitOnNewline_cons (c : Char) (rest : List Char) :
    splitOnNewline (c :: rest)
      = if c = '\n' then [] :: splitOnNewline rest
        else
          match splitOnNewline rest with
          | [] => [[c]]
          | l :: ls => (c :: l) :: ls := rfl

theorem splitOnNewline_ne_nil (cs : List Char) : splitOnNewline cs ≠ [] := by
  cases cs with
  | nil => simp [splitOnNewline]
  | cons c rest =>
      rw [splitOnNewline_cons]
      by_cases h : c = '\n'
      · simp [h]
      · simp only [if_neg h]
        cases hs : splitOnNewline rest <;> simp

theorem lastLine_cons_of_ne_nil (x : List Char) {l : List (List Char)} (h : l ≠ []) :
    lastLine (x :: l) = lastLine l := by
  cases l with
  | nil => exact absurd rfl h
  | cons y ys => rfl

theorem splitOnNewline_append (a b : List Char) :
    splitOnNewline (a ++ b)
      = (splitOnNewline a).dropLast
        ++ headPrepend (lastLine (splitOnNewline a)) (splitOnNewline b) := by
  induction a with
  | nil =>
      obtain ⟨h, t, hb⟩ := List.exists_cons_of_ne_nil (splitOnNewline_ne_nil b)
      simp [splitOnNewline, lastLine, hb, headPrepend]
  | cons c a ih =>
      rw [List.cons_append, splitOnNewline_cons, splitOnNewline_cons]
      obtain ⟨h, t, ha⟩ := List.exists_cons_of_ne_nil (splitOnNewline_ne_nil a)
      by_cases hc : c = '\n'
      · rw [if_pos hc, if_pos hc, ih, ha,
          lastLine_cons_of_ne_nil [] (by simp : h :: t ≠ [])]
        cases t with
        | nil => simp [lastLine, headPrepend, List.dropLast]
        | cons h2 t2 => simp [List.dropLast]
      · rw [if_neg hc, if_neg hc, ih, ha]
        cases t with
        | nil =>
            obtain ⟨hb2, tb2, hbb⟩ := List.exists_cons_of_ne_nil (splitOnNewline_ne_nil b)
            simp [hbb, headPrepend, lastLine, List.dropLast]
        | cons h2 t2 =>
            simp only [List.dropLast]
            rw [lastLine_cons_of_ne_nil h (by simp : h2 :: t2 ≠ []),
              lastLine_cons_of_ne_nil (c :: h) (by simp : h2 :: t2 ≠ [])]
            simp [headPrepend]

theorem splitOnNewline_no_newline (cs : List Char) (h : '\n' ∉ cs) :
    splitOnNewline cs = [cs] := by
  induction cs with
  | nil => rfl
  | cons c rest ih =>
      have hc : c ≠ '\n' := fun he => h (he ▸ List.mem_cons_self c rest)
      have hrest : '\n' ∉ rest := fun hm => h (List.mem_cons_of_mem c hm)
      rw [splitOnNewline_cons, if_neg hc, ih hrest]

theorem splitOnNewline_last_no_newline (cs : List Char) :
    '\n' ∉ lastLine (splitOnNewline cs) := by
  induction cs with
  | nil => simp [splitOnNewline, lastLine]
  | cons c rest ih =>
      rw [splitOnNewline_cons]
      obtain ⟨h, t, ha⟩ := List.exists_cons_of_ne_nil (splitOnNewline_ne_nil rest)
      by_cases hc : c = '\n'
      · rw [if_pos hc, lastLine_cons_of_ne_nil [] (splitOnNewline_ne_nil rest)]
        exact ih
      · rw [if_neg hc, ha]
        rw [ha] at ih
        cases t with
        | nil =>
            simp only [lastLine] at ih ⊢
            intro hmem
            rcases List.mem_cons.mp hmem with he | hm
            · exact hc he.symm
            · exact ih hm
        | cons h2 t2 =>
            rw [lastLine_cons_of_ne_nil h (by simp : h2 :: t2 ≠ [])] at ih
            rw [lastLine_cons_of_ne_nil (c :: h) (by simp : h2 :: t2 ≠ [])]
            exact ih

theorem processLine_buffer (d : DecoderState) (b line : List Char) :
    processLine { d with buffer := b } line
      = ({ (processLine d line).1 with buffer := b }, (processLine d line).2) := by
  simp only [processLine]
  split_ifs <;> rfl

theorem processLine_buffer_eq (d : DecoderState) (line : List Char) :
    (processLine d line).1.buffer = d.buffer := by
  simp only [processLine]
  split_ifs <;> rfl

theorem processLinesD_buffer_eq (ls : List (List Char)) :
    ∀ d : DecoderState, (processLinesD d ls).1.buffer = d.buffer := by
  induction ls with
  | nil => intro d; rfl
  | cons l ls ih =>
      intro d
      rw [processLinesD]
      exact (ih _).trans (processLine_buffer_eq d l)

theorem processLinesD_buffer (ls : List (List Char)) :
    ∀ (d : DecoderState) (b : List Char),
      processLinesD { d with buffer := b } ls
        = ({ (processLinesD d ls).1 with buffer := b }, (processLinesD d ls).2) := by
  induction ls with
  | nil => intro d b; rfl
  | cons l ls ih =>
      intro d b
      rw [processLinesD, processLine_buffer, ih, processLinesD]

theorem processLinesD_append (xs ys : List (List Char)) :
    ∀ d : DecoderState,
      processLinesD d (xs ++ ys)
        = ((processLinesD (processLinesD d xs).1 ys).1,
           (processLinesD d xs).2 ++ (processLinesD (processLinesD d xs).1 ys).2) := by
  induction xs with
  | nil => intro d; rfl
  | cons x xs ih =>
      intro d
      rw [List.cons_append, processLinesD, ih, processLinesD]
      simp [List.append_assoc]

theorem lastLine_append_ne_nil (l1 : List (List Char)) (h2 : List Char)
    (t2 : List (List Char)) :
    lastLine (l1 ++ h2 :: t2) = lastLine (h2 :: t2) := by
  induction l1 with
  | nil => rfl
  | cons a l1 ih =>
      rw [List.cons_append, lastLine_cons_of_ne_nil a (by simp : l1 ++ h2 :: t2 ≠ []), ih]

theorem dropLast_append_ne_nil (l1 : List (List Char)) (h2 : List Char)
    (t2 : List (List Char)) :
    (l1 ++ h2 :: t2).dropLast = l1 ++ (h2 :: t2).dropLast := by
  induction l1 with
  | nil => rfl
  | cons a l1 ih =>
      rw [List.cons_append,
        List.dropLast_cons_of_ne_nil (by simp : l1 ++ h2 :: t2 ≠ []), ih,
        List.cons_append]

/-- Incremental chunked decoding coincides with decoding the concatenated
text: processing `c1` then `c2` gives the same final decoder state and the
same dispatched pairs, in the same order, as processing `c1 ++ c2` at once. -/
theorem processChunk_processChunk (d : DecoderState) (c1 c2 : List Char) :
    processChunks d [c1, c2] = processChunk d (c1 ++ c2) := by
  obtain ⟨hB, tB, hBeq⟩ := List.exists_cons_of_ne_nil
    (splitOnNewline_ne_nil ((lastLine (splitOnNewline (d.buffer ++ c1))) ++ c2))
  have hsplit1 :
      splitOnNewline (lastLine (splitOnNewline (d.buffer ++ c1)))
        = [lastLine (splitOnNewline (d.buffer ++ c1))] :=
    splitOnNewline_no_newline _ (splitOnNewline_last_no_newline (d.buffer ++ c1))
  have hC : splitOnNewline (d.buffer ++ (c1 ++ c2))
      = (splitOnNewline (d.buffer ++ c1)).dropLast
        ++ splitOnNewline ((lastLine (splitOnNewline (d.buffer ++ c1))) ++ c2) := by
    rw [← List.append_assoc, splitOnNewline_append (d.buffer ++ c1) c2,
      splitOnNewline_append (lastLine (splitOnNewline (d.buffer ++ c1))) c2,
      hsplit1]
    rfl
  simp only [processChunks, processChunk, List.append_nil]
  rw [hC, hBeq, dropLast_append_ne_nil, lastLine_append_ne_nil]
  rw [processLinesD_append]
  rw [← hBeq]
  simp only [processLinesD_buffer, processLinesD_buffer_eq]

theorem processLine_event (d : DecoderState) (rest : List Char) :
    processLine d ("event:".toList ++ rest)
      = ({ d with currentEventType := trimChars rest }, []) := by
  have hpre : "event:".toList.isPrefixOf ("event:".toList ++ rest) = true := by
    simp [List.isPrefixOf_iff_prefix]
  have h6 : ("event:".toList).length = 6 := rfl
  have hdrop : ("event:".toList ++ rest).drop 6 = rest := by
    rw [← h6]
    exact List.drop_left _ _
  simp [processLine, hpre, hdrop]

theorem processLine_data (d : DecoderState) (rest : List Char)
    (he : d.currentEventType ≠ []) (hd : trimChars rest ≠ []) :
    processLine d ("data:".toList ++ rest)
      = ({ d with currentEventType := [], currentData := [] },
         [(d.currentEventType, trimChars rest)]) := by
  have hnp : "event:".toList.isPrefixOf ("data:".toList ++ rest) = false := by
    rw [show "event:".toList = 'e' :: "vent:".toList from rfl,
      show ("data:".toList ++ rest) = 'd' :: ("ata:".toList ++ rest) from rfl]
    simp [List.isPrefixOf]
  have hpre : "data:".toList.isPrefixOf ("data:".toList ++ rest) = true := by
    simp [List.isPrefixOf_iff_prefix]
  have h5 : ("data:".toList).length = 5 := rfl
  have hdrop : ("data:".toList ++ rest).drop 5 = rest := by
    rw [← h5]
    exact List.drop_left _ _
  simp [processLine, hnp, hpre, hdrop, he, hd]

theorem processLine_blank (d : DecoderState) :
    processLine d [] = ({ d with currentEventType := [], currentData := [] }, []) := rfl

/-- Counterexample to **C3** as stated: the decoder dispatches the assembled
`(type, payload)` pair while handling the `data:` line itself, not at a
blank-line boundary.  Feeding `"event: ping\ndata: 1\n"` — which contains no
blank line at all — already dispatches `("ping", "1")`, and processing a
blank line dispatches nothing (it only resets the pending type/payload). -/
theorem C3_dispatch_at_data_line_counterexample :
    (processChunk initialDecoder ("event: ping\ndata: 1\n".toList)).2
        = [("ping".toList, "1".toList)] ∧
    (splitOnNewline (initialDecoder.buffer ++ "event: ping\ndata: 1\n".toList)).dropLast
        = ["event: ping".toList, "data: 1".toList] ∧
    [] ∉ (splitOnNewline (initialDecoder.buffer ++ "event: ping\ndata: 1\n".toList)).dropLast ∧
    (processLine ⟨[], "ping".toList, "1".toList⟩ []).2 = [] := by
  refine ⟨rfl, rfl, by decide, rfl⟩

/-- Claim C3, amended. The decoder is incremental: (1) a chunk holding no
newline only extends the buffered partial line and dispatches nothing;
(2) chunked processing equals processing the concatenation, so nothing waits
for the end of the response body; (3) an `event:` line sets the pending type;
(4) a `data:` line sets the payload and — when both type and payload are
non-empty — dispatches the assembled pair immediately, before any blank-line
boundary; (5) a blank line dispatches nothing and resets the pending
type/payload. -/
theorem C3_incremental_decoder_amended (d : DecoderState) (c c1 c2 rest : List Char) :
    ('\n' ∉ d.buffer ++ c →
      processChunk d c = ({ d with buffer := d.buffer ++ c }, [])) ∧
    processChunks d [c1, c2] = processChunk d (c1 ++ c2) ∧
    processLine d ("event:".toList ++ rest)
      = ({ d with currentEventType := trimChars rest }, []) ∧
    (d.currentEventType ≠ [] → trimChars rest ≠ [] →
      processLine d ("data:".toList ++ rest)
        = ({ d with currentEventType := [], currentData := [] },
           [(d.currentEventType, trimChars rest)])) ∧
    processLine d [] = ({ d with currentEventType := [], currentData := [] }, []) := by
  refine ⟨?_, processChunk_processChunk d c1 c2, processLine_event d rest,
    processLine_data d rest, processLine_blank d⟩
  intro h
  rw [processChunk, splitOnNewline_no_newline _ h]
  rfl

/-- Witness for the amended C3: a concrete no-newline chunk is buffered whole,
and chunked decoding of a concrete split input equals batch decoding. -/
theorem C3_incremental_decoder_amended_witness :
    processChunk initialDecoder ("event: pi".toList)
        = ({ initialDecoder with buffer := [] ++ "event: pi".toList }, []) ∧
    processChunks initialDecoder ["event: pi".toList, "ng\ndata: 1\n".toList]
        = processChunk initialDecoder ("event: pi".toList ++ "ng\ndata: 1\n".toList) :=
  ⟨((C3_incremental_decoder_amended initialDecoder ("event: pi".toList)
      ("event: pi".toList) ("ng\ndata: 1\n".toList) []).1 (by decide)),
   (C3_incremental_decoder_amended initialDecoder ("event: pi".toList)
      ("event: pi".toList) ("ng\ndata: 1\n".toList) []).2.1⟩

end SpeakWeb
